import Mathlib

/-!
Shallow embedding of the `SoftLimiter` class from
`include/soft_limiter.h` (dosbox-staging), together with proofs about it.

Modelling conventions:

* `float` values are modelled as exact rationals (`ℚ`).  Every concrete
  computation cited below lies far from any binary floating-point
  rounding boundary, so the idealisation does not affect the verdicts.
* The 16-bit output array is modelled as a total map `ℕ → ℤ` holding the
  value produced by the narrowing cast `static_cast<int16_t>`, which
  truncates toward zero.  Whether that value fits the `int16_t` range is
  itself one of the properties under scrutiny (an out-of-range narrowing
  conversion from `float` is undefined behaviour in the C++ source), so
  the model records the full truncated integer.
* The member array `out` is default-initialised in the source
  (indeterminate contents), so its initial contents are a parameter of
  `mkState`.
* `uint16_t` arithmetic (`const uint16_t samples = req_frames * 2`) is
  modelled with an explicit `% 65536`.
* `ScaleSide`'s iterator parameters translate to sample indices; the
  `in` and `out` cursors of the source always carry the same index, so a
  single index suffices.  `in.end() - (side + 2)` can point before
  `in.begin()` (a 2-sample array with side 1), hence the `last` bound is
  an integer while the start index stays a natural number (every start
  expression in the source is nonnegative).
* `peak_pos_left` / `peak_pos_right` are member iterators initialised to
  `nullptr`; they are modelled as indices initialised to 0.  They are
  only dereferenced in the new-peak branch, which requires the local
  peak to be positive, and a positive local peak guarantees the position
  was freshly assigned during the same call, so the initial value is
  never consulted.
* `channel_name` and the log strings of `PrintStats` are irrelevant to
  the claims; `printStats` returns the emitted numeric payload instead
  (`none` when the function returns without logging).
-/

namespace SoftLimiter

/-- `static_cast<float>(std::numeric_limits<int16_t>::max())`. -/
def upper_bound : ℚ := 32767

/-- `static_cast<float>(std::numeric_limits<int16_t>::min())`. -/
def lower_bound : ℚ := -32768

/-- The narrowing conversion `static_cast<int16_t>(float)`: truncation
toward zero (the resulting integer is kept in full; staying inside the
`int16_t` range is a property to be checked, not assumed). -/
def truncQ (q : ℚ) : ℤ := if 0 ≤ q then ⌊q⌋ else ⌈q⌉

/-- The `AudioFrame` pair of floats (from `mixer.h`). -/
structure AudioFrame where
  left : ℚ
  right : ℚ
  deriving DecidableEq, Repr

/-- Point update of the output array. -/
def writeOut (out : ℕ → ℤ) (i : ℕ) (v : ℤ) : ℕ → ℤ :=
  fun j => if j = i then v else out j

/-- Number of iterations of the `while (in_pos <= in_pos_last)` loop of
`ScaleSide` when the cursor starts at `start` and advances by 2. -/
def scaleSteps (start last : ℤ) : ℕ := ((last - start) / 2 + 1).toNat

/-- The loop body of `ScaleSide`, iterated `n` times from index `start`:
`*out_pos = static_cast<int16_t>(poly_add + (*in_pos) * poly_mult)`,
both cursors advancing by 2. -/
def scaleSideAux (inp : List ℚ) (a m : ℚ) : ℕ → ℕ → (ℕ → ℤ) → (ℕ → ℤ)
  | _, 0, out => out
  | start, n + 1, out =>
      scaleSideAux inp a m (start + 2) n
        (writeOut out start (truncQ (a + inp.getD start 0 * m)))

/-- `SoftLimiter::ScaleSide`: scale every second sample from `start`
while the cursor is `≤ last`, writing the narrowed result at the same
index of the output array. -/
def scaleSide (inp : List ℚ) (a m : ℚ) (start : ℕ) (last : ℤ)
    (out : ℕ → ℤ) : ℕ → ℤ :=
  scaleSideAux inp a m start (scaleSteps start last) out

/-- Result of the scanning loop of `SoftLimiter::FindPeaks`: per-channel
maximum absolute value among the scanned samples and the index of its
first occurrence. -/
structure PeakScan where
  localLeft : ℚ
  posLeft : ℕ
  localRight : ℚ
  posRight : ℕ
  deriving DecidableEq, Repr

/-- The scanning loop of `SoftLimiter::FindPeaks` over the first
`samples` entries (`samples` is always even: it comes from
`req_frames * 2` in `uint16_t`).  `pos0L`/`pos0R` are the carried member
values of `peak_pos_left`/`peak_pos_right`; they survive when no strictly
larger value is found (ties keep the first occurrence, as in the source's
strict `>`). -/
def peakScan (inp : List ℚ) (samples : ℕ) (pos0L pos0R : ℕ) : PeakScan :=
  (List.range (samples / 2)).foldl
    (fun acc j =>
      let vl := |inp.getD (2 * j) 0|
      let acc1 :=
        if vl > acc.localLeft then
          { acc with localLeft := vl, posLeft := 2 * j }
        else acc
      let vr := |inp.getD (2 * j + 1) 0|
      if vr > acc1.localRight then
        { acc1 with localRight := vr, posRight := 2 * j + 1 }
      else acc1)
    ⟨0, pos0L, 0, pos0R⟩

/-- `SoftLimiter::TriageSignal` for one side.  Arguments mirror the
source: `local0` is the raw local peak, `last_pos` the peak position,
`pre` the prescale, `existing` the tracked peak (passed by reference in
the source), `add` the tail value, `scale` the `limit_scale` reference.
Returns the new output array, the new tracked peak, and the new
`limit_scale` (unchanged in the pass-through branch, exactly as in the
source). -/
def triageSignal (inp : List ℚ) (out : ℕ → ℤ) (side : ℕ) (local0 : ℚ)
    (last_pos : ℕ) (pre existing add scale : ℚ) :
    (ℕ → ℤ) × ℚ × ℚ :=
  let S : ℤ := inp.length
  let logical := local0 * pre
  if logical > existing ∧ logical > upper_bound then
    -- New peak!
    let existing1 := logical
    let mult := (upper_bound - add) / (logical - add)
    -- Scale from the previous tail up to the local peak using a polynomial
    let out1 := scaleSide inp add mult side (last_pos : ℤ) out
    -- Scale from after the local peak to the end using a pure scalar
    let scale1 := upper_bound / existing1
    let out2 :=
      scaleSide inp 0 scale1 (last_pos + side + 2) (S - (side + 2)) out1
    (out2, existing1, scale1)
  else if existing > upper_bound then
    let scale1 := upper_bound / existing
    (scaleSide inp 0 scale1 side (S - (side + 2)) out, existing, scale1)
  else
    (scaleSide inp 0 1 side (S - (side + 2)) out, existing, scale)

/-- The mutable state of a `SoftLimiter` instance (the `out` member plus
every data member that the algorithm reads or writes; `channel_name` is
omitted as it only feeds log strings). -/
structure State where
  out : ℕ → ℤ
  prescale : AudioFrame
  limit_scale : AudioFrame
  peak : AudioFrame
  tail : AudioFrame
  peakPosLeft : ℕ
  peakPosRight : ℕ
  limited_ms : ℤ
  non_limited_ms : ℤ

/-- `SoftLimiter::FindPeaks`: scan the first `samples` entries, then
triage the left side followed by the right side. -/
def findPeaks (st : State) (inp : List ℚ) (samples : ℕ) : State :=
  let sc := peakScan inp samples st.peakPosLeft st.peakPosRight
  let l := triageSignal inp st.out 0 sc.localLeft sc.posLeft
    st.prescale.left st.peak.left st.tail.left st.limit_scale.left
  let r := triageSignal inp l.1 1 sc.localRight sc.posRight
    st.prescale.right st.peak.right st.tail.right st.limit_scale.right
  { st with
      out := r.1
      peak := ⟨l.2.1, r.2.1⟩
      limit_scale := ⟨l.2.2, r.2.2⟩
      peakPosLeft := sc.posLeft
      peakPosRight := sc.posRight }

/-- `SoftLimiter::SaveTailFrame`: record the output samples at offsets
`(req_frames - 1) * 2` and `(req_frames - 1) * 2 + 1`, cast back to the
wide domain; reset the tail to zero when no frames were requested. -/
def saveTailFrame (st : State) (req_frames : ℕ) : State :=
  if req_frames ≠ 0 then
    let offset := (req_frames - 1) * 2
    { st with tail := ⟨(st.out offset : ℚ), (st.out (offset + 1) : ℚ)⟩ }
  else
    { st with tail := ⟨0, 0⟩ }

/-- `constexpr float delta_db = 0.002709201f` (0.0235 dB increments). -/
def delta_db : ℚ := 0.002709201

/-- `constexpr float release_amplitude = upper_bound * delta_db`. -/
def release_amplitude : ℚ := upper_bound * delta_db

/-- `SoftLimiter::Release`: bump `limited_ms` and decrement each peak
still above the bound by one release step. -/
def release (st : State) : State :=
  { st with
      limited_ms := st.limited_ms + 1
      peak :=
        ⟨if st.peak.left > upper_bound then st.peak.left - release_amplitude
          else st.peak.left,
         if st.peak.right > upper_bound then st.peak.right - release_amplitude
          else st.peak.right⟩ }

/-- The check performed by `assert(samples <= in.size())` in
`SoftLimiter::Apply`, where `samples` is the `uint16_t` value
`req_frames * 2` (hence the `% 65536`). -/
def applyCheck (inp_len req_frames : ℕ) : Bool :=
  req_frames * 2 % 65536 ≤ inp_len

/-- `SoftLimiter::Apply`: compute the (wrapped-to-`uint16_t`) sample
count, find and triage the peaks, save the tail frame, release. -/
def applyStep (st : State) (inp : List ℚ) (req_frames : ℕ) : State :=
  let samples := req_frames * 2 % 65536
  release (saveTailFrame (findPeaks st inp samples) req_frames)

/-- `SoftLimiter::Reset`. -/
def resetStep (st : State) : State :=
  { st with peak := ⟨1, 1⟩, limited_ms := 0, non_limited_ms := 0 }

/-- A freshly constructed instance: `limit_scale = {1,1}`, `peak = {1,1}`,
`tail = {0,0}`, counters zero; `out0` is the indeterminate initial
content of the default-initialised output member array. -/
def mkState (pre : AudioFrame) (out0 : ℕ → ℤ) : State :=
  { out := out0
    prescale := pre
    limit_scale := ⟨1, 1⟩
    peak := ⟨1, 1⟩
    tail := ⟨0, 0⟩
    peakPosLeft := 0
    peakPosRight := 0
    limited_ms := 0
    non_limited_ms := 0 }

/-- The numeric payload of the log lines `SoftLimiter::PrintStats` can
emit once past its two early-outs: the peak percentage, the optional
louder-mix suggestion, and the optional quieter-mix suggestion. -/
structure StatsReport where
  peakPct : ℚ
  louder : Option ℚ
  quieter : Option ℚ
  deriving DecidableEq, Repr

/-- `SoftLimiter::PrintStats`, with the logged numbers in place of the
strings; `none` models the early returns that log nothing. -/
def printStats (st : State) : Option StatsReport :=
  let ms_total : ℚ := (st.limited_ms : ℚ) + (st.non_limited_ms : ℚ)
  let minutes_total := ms_total / (1000 * 60)
  if minutes_total < 0.5 then none
  else
    let peak_sample := max st.peak.left st.peak.right
    if peak_sample < upper_bound / 20 then none
    else
      let peak_ratio := min (peak_sample / upper_bound) 1
      let scale := max st.prescale.left st.prescale.right
      let louder :=
        if peak_ratio / scale < 0.6 then some (100 * scale / peak_ratio)
        else none
      let time_ratio := (st.limited_ms : ℚ) / (ms_total + 1)
      let quieter :=
        if time_ratio > 0.2 then
          some (100 * (1 - time_ratio / 2) * scale)
        else none
      some ⟨100 * peak_ratio, louder, quieter⟩

/-- The public operations of the class (construction aside).  `getPeaks`
and `printStats` are state-readers: they leave the state untouched. -/
inductive Op where
  | applyOp (inp : List ℚ) (req_frames : ℕ)
  | resetOp
  | getPeaksOp
  | printStatsOp

/-- One public operation acting on the state. -/
def stepOp (st : State) : Op → State
  | .applyOp inp f => applyStep st inp f
  | .resetOp => resetStep st
  | .getPeaksOp => st
  | .printStatsOp => st

/-- A sequence of public operations from a given state. -/
def runOps (st : State) (ops : List Op) : State :=
  ops.foldl stepOp st


/-- A demonstration state for the diagnostics theorems: 30000 time units
accumulated, all of them limited, left peak pinned at the bound. -/
def statsDemoState : State :=
  { out := fun _ => 0
    prescale := ⟨1, 1⟩
    limit_scale := ⟨1, 1⟩
    peak := ⟨32767, 1⟩
    tail := ⟨0, 0⟩
    peakPosLeft := 0
    peakPosRight := 0
    limited_ms := 30000
    non_limited_ms := 0 }

/-! ## Basic projection lemmas -/

theorem findPeaks_limited_ms (st : State) (inp : List ℚ) (samples : ℕ) :
    (findPeaks st inp samples).limited_ms = st.limited_ms := rfl

theorem findPeaks_non_limited_ms (st : State) (inp : List ℚ) (samples : ℕ) :
    (findPeaks st inp samples).non_limited_ms = st.non_limited_ms := rfl

theorem findPeaks_tail (st : State) (inp : List ℚ) (samples : ℕ) :
    (findPeaks st inp samples).tail = st.tail := rfl

theorem saveTailFrame_limited_ms (st : State) (n : ℕ) :
    (saveTailFrame st n).limited_ms = st.limited_ms := by
  unfold saveTailFrame; split <;> rfl

theorem saveTailFrame_non_limited_ms (st : State) (n : ℕ) :
    (saveTailFrame st n).non_limited_ms = st.non_limited_ms := by
  unfold saveTailFrame; split <;> rfl

theorem saveTailFrame_out (st : State) (n : ℕ) :
    (saveTailFrame st n).out = st.out := by
  unfold saveTailFrame; split <;> rfl

theorem saveTailFrame_peak (st : State) (n : ℕ) :
    (saveTailFrame st n).peak = st.peak := by
  unfold saveTailFrame; split <;> rfl

theorem release_tail (st : State) : (release st).tail = st.tail := rfl

theorem release_out (st : State) : (release st).out = st.out := rfl

theorem release_non_limited_ms (st : State) :
    (release st).non_limited_ms = st.non_limited_ms := rfl

theorem release_limited_ms (st : State) :
    (release st).limited_ms = st.limited_ms + 1 := rfl

theorem release_peak_left (st : State) :
    (release st).peak.left =
      if st.peak.left > upper_bound then st.peak.left - release_amplitude
      else st.peak.left := rfl

theorem release_peak_right (st : State) :
    (release st).peak.right =
      if st.peak.right > upper_bound then st.peak.right - release_amplitude
      else st.peak.right := rfl

theorem applyStep_eq (st : State) (inp : List ℚ) (n : ℕ) :
    applyStep st inp n =
      release (saveTailFrame (findPeaks st inp (n * 2 % 65536)) n) := rfl

theorem applyStep_limited_ms (st : State) (inp : List ℚ) (n : ℕ) :
    (applyStep st inp n).limited_ms = st.limited_ms + 1 := by
  unfold applyStep
  rw [release_limited_ms, saveTailFrame_limited_ms, findPeaks_limited_ms]

theorem applyStep_non_limited_ms (st : State) (inp : List ℚ) (n : ℕ) :
    (applyStep st inp n).non_limited_ms = st.non_limited_ms := by
  unfold applyStep
  rw [release_non_limited_ms, saveTailFrame_non_limited_ms,
    findPeaks_non_limited_ms]

/-! ## Claim theorems -/

/-- C1: the claim that every sample of the block returned by `Apply`
lies within the `int16_t` range fails on the code.  With prescale
`{1,1}` and capacity one frame, a first call with sample 100 records
tail 100; a second call whose left sample is 65534 takes the new-peak
branch, and the polynomial pass writes
`trunc(100 + 65534 * (32767 - 100) / (65534 - 100)) = 32816 > 32767`
at the peak position (an out-of-range narrowing, undefined behaviour in
the C++). -/
theorem c1_bound_safety_violated :
    ((applyStep (applyStep (mkState ⟨1, 1⟩ (fun _ => 0)) [100, 0] 1)
        [65534, 0] 1).out 0 = 32816) ∧
    ¬((-32768 : ℤ) ≤ 32816 ∧ (32816 : ℤ) ≤ 32767) :=
  ⟨by with_unfolding_all decide, by decide⟩

/-- C2: the claimed new-peak behaviour fails on the code.  Prescale
`{1,1}`, capacity two frames.  Call 1 (`[0, 10, 0, 40000]`, 2 frames)
creates a right-channel peak at the last slot, so `tail.right = 32767`.
Call 2 (`[0, 50000, 0, 5]`, 2 frames) has a new right-channel peak at
index 1 with a later right sample at index 3; the claim says that
sample is scaled by `bound / local`, i.e. written as
`trunc(5 * 32767 / 50000) = 3`, but the post-peak pass starts at
`last_pos + side + 2` (double-counting `side`, an even index for the
right channel) and stops before it, leaving the stale value 32767. -/
theorem c2_new_peak_behaviour_violated :
    ((applyStep (applyStep (mkState ⟨1, 1⟩ (fun _ => 0)) [0, 10, 0, 40000] 2)
        [0, 50000, 0, 5] 2).out 3 = 32767) ∧
    truncQ ((5 : ℚ) * (upper_bound / 50000)) = 3 ∧ (32767 : ℤ) ≠ 3 :=
  ⟨by with_unfolding_all decide, by with_unfolding_all decide, by decide⟩

/-- C3: after `Apply` with `n > 0` frames the tail equals the returned
block's samples at indices `2(n-1)` and `2(n-1)+1` cast back to the wide
domain; with `n = 0` the tail is reset to `{0, 0}`. -/
theorem c3_tail_invariant (st : State) (inp : List ℚ) (n : ℕ) :
    (0 < n →
      (applyStep st inp n).tail =
        ⟨((applyStep st inp n).out (2 * (n - 1)) : ℚ),
         ((applyStep st inp n).out (2 * (n - 1) + 1) : ℚ)⟩) ∧
    (n = 0 → (applyStep st inp n).tail = ⟨0, 0⟩) := by
  constructor
  · intro h
    have hn : n ≠ 0 := Nat.pos_iff_ne_zero.mp h
    unfold applyStep
    rw [release_tail, release_out, saveTailFrame_out]
    unfold saveTailFrame
    rw [if_pos hn]
    rw [Nat.mul_comm 2 (n - 1)]
  · intro h
    subst h
    unfold applyStep
    rw [release_tail]
    unfold saveTailFrame
    rw [if_neg (by simp)]

/-- Closed instance of `c3_tail_invariant`. -/
theorem c3_tail_invariant_witness :
    (applyStep (mkState ⟨1, 1⟩ (fun _ => 0)) [7, 9] 1).tail =
      ⟨((applyStep (mkState ⟨1, 1⟩ (fun _ => 0)) [7, 9] 1).out 0 : ℚ),
       ((applyStep (mkState ⟨1, 1⟩ (fun _ => 0)) [7, 9] 1).out 1 : ℚ)⟩ := by
  have h := (c3_tail_invariant (mkState ⟨1, 1⟩ (fun _ => 0)) [7, 9] 1).1
    (by decide)
  simpa using h

/-- C4: the pass-through claim fails on the code.  Prescale `{1,1}`,
capacity one frame, fresh instance, one call with samples `[5, 5]` (both
far below the bound, so no sample after prescale ever exceeds it); a
direct cast would give output `[5, 5]`, but the right-channel scalar
pass stops at `in.end() - 3`, so the final right slot is never written
and keeps its initial value 0. -/
theorem c4_pass_through_violated :
    ((applyStep (mkState ⟨1, 1⟩ (fun _ => 0)) [5, 5] 1).out 0 = truncQ 5) ∧
    ((applyStep (mkState ⟨1, 1⟩ (fun _ => 0)) [5, 5] 1).out 1 = 0) ∧
    truncQ (5 : ℚ) = 5 ∧ (0 : ℤ) ≠ 5 :=
  ⟨by with_unfolding_all decide, by with_unfolding_all decide,
   by with_unfolding_all decide, by decide⟩

/-- C5: every `Apply` is tail capture followed by `Release`, which
increments `limited_ms` by exactly one and, per channel, decrements the
tracked peak by exactly `bound * 0.002709201` when it exceeds the bound
and leaves it unchanged otherwise. -/
theorem c5_release_step (st : State) (inp : List ℚ) (n : ℕ) :
    applyStep st inp n =
      release (saveTailFrame (findPeaks st inp (n * 2 % 65536)) n) ∧
    (applyStep st inp n).limited_ms = st.limited_ms + 1 ∧
    ((findPeaks st inp (n * 2 % 65536)).peak.left > upper_bound →
      (applyStep st inp n).peak.left =
        (findPeaks st inp (n * 2 % 65536)).peak.left -
          upper_bound * (2709201 / 1000000000)) ∧
    ((findPeaks st inp (n * 2 % 65536)).peak.left ≤ upper_bound →
      (applyStep st inp n).peak.left =
        (findPeaks st inp (n * 2 % 65536)).peak.left) ∧
    ((findPeaks st inp (n * 2 % 65536)).peak.right > upper_bound →
      (applyStep st inp n).peak.right =
        (findPeaks st inp (n * 2 % 65536)).peak.right -
          upper_bound * (2709201 / 1000000000)) ∧
    ((findPeaks st inp (n * 2 % 65536)).peak.right ≤ upper_bound →
      (applyStep st inp n).peak.right =
        (findPeaks st inp (n * 2 % 65536)).peak.right) := by
  have hra : release_amplitude = upper_bound * (2709201 / 1000000000) := by
    norm_num [release_amplitude, delta_db]
  refine ⟨rfl, applyStep_limited_ms st inp n, ?_, ?_, ?_, ?_⟩ <;> intro h
  · rw [applyStep_eq, release_peak_left, saveTailFrame_peak, if_pos h, hra]
  · rw [applyStep_eq, release_peak_left, saveTailFrame_peak,
      if_neg (not_lt.mpr h)]
  · rw [applyStep_eq, release_peak_right, saveTailFrame_peak, if_pos h, hra]
  · rw [applyStep_eq, release_peak_right, saveTailFrame_peak,
      if_neg (not_lt.mpr h)]

/-- Closed instance of `c5_release_step` (quiet input: both peaks stay at
or below the bound and are unchanged; `limited_ms` becomes 1). -/
theorem c5_release_step_witness :
    (applyStep (mkState ⟨1, 1⟩ (fun _ => 0)) [0, 0] 1).limited_ms = 0 + 1 ∧
    (applyStep (mkState ⟨1, 1⟩ (fun _ => 0)) [0, 0] 1).peak.left =
      (findPeaks (mkState ⟨1, 1⟩ (fun _ => 0)) [0, 0] (1 * 2 % 65536)).peak.left := by
  have h := c5_release_step (mkState ⟨1, 1⟩ (fun _ => 0)) [0, 0] 1
  exact ⟨h.2.1, h.2.2.2.1 (by with_unfolding_all decide)⟩

/-- C8: the claim that every `frameCount` with `frameCount * 2` above the
buffer capacity fails the assertion is violated: `samples` is computed in
`uint16_t`, so `frameCount = 32768` yields `samples = 0` and the check
passes against any capacity (here 2 samples), silently truncating. -/
theorem c8_assert_check_violated :
    applyCheck 2 32768 = true ∧ 2 < 32768 * 2 := by decide

/-- C10: `Apply` increments `limited_ms` on every invocation and never
touches `non_limited_ms`; only `Reset` writes `non_limited_ms` (to 0).
After `k` `Apply` calls since construction or the last `Reset`,
`limited_ms = k` and `non_limited_ms = 0`, so the limited-time fraction
`limited_ms / (total + 1)` used by `PrintStats` equals `k / (k + 1)`. -/
theorem c10_counters (pre : AudioFrame) (out0 : ℕ → ℤ) (s0 st : State)
    (inp : List ℚ) (n : ℕ) (calls : List (List ℚ × ℕ)) :
    (calls.foldl (fun s c => applyStep s c.1 c.2) (mkState pre out0)).limited_ms
        = calls.length ∧
    (calls.foldl (fun s c => applyStep s c.1 c.2)
        (mkState pre out0)).non_limited_ms = 0 ∧
    (calls.foldl (fun s c => applyStep s c.1 c.2) (resetStep s0)).limited_ms
        = calls.length ∧
    (calls.foldl (fun s c => applyStep s c.1 c.2)
        (resetStep s0)).non_limited_ms = 0 ∧
    (applyStep st inp n).limited_ms = st.limited_ms + 1 ∧
    (applyStep st inp n).non_limited_ms = st.non_limited_ms ∧
    (resetStep s0).non_limited_ms = 0 ∧
    (((calls.foldl (fun s c => applyStep s c.1 c.2)
          (mkState pre out0)).limited_ms : ℚ) /
        (((calls.foldl (fun s c => applyStep s c.1 c.2)
            (mkState pre out0)).limited_ms : ℚ) +
          ((calls.foldl (fun s c => applyStep s c.1 c.2)
              (mkState pre out0)).non_limited_ms : ℚ) + 1)
      = (calls.length : ℚ) / ((calls.length : ℚ) + 1)) := by
  have key : ∀ (calls : List (List ℚ × ℕ)) (s : State),
      (calls.foldl (fun s c => applyStep s c.1 c.2) s).limited_ms =
        s.limited_ms + calls.length ∧
      (calls.foldl (fun s c => applyStep s c.1 c.2) s).non_limited_ms =
        s.non_limited_ms := by
    intro calls
    induction calls with
    | nil => intro s; simp
    | cons c cs ih =>
        intro s
        have h := ih (applyStep s c.1 c.2)
        simp only [List.foldl_cons, List.length_cons, h.1, h.2,
          applyStep_limited_ms, applyStep_non_limited_ms]
        constructor
        · push_cast
          ring
        · trivial
  have h1 := key calls (mkState pre out0)
  have h2 := key calls (resetStep s0)
  have e1 : (mkState pre out0).limited_ms = 0 := rfl
  have e2 : (mkState pre out0).non_limited_ms = 0 := rfl
  have e3 : (resetStep s0).limited_ms = 0 := rfl
  have e4 : (resetStep s0).non_limited_ms = 0 := rfl
  rw [e1] at h1
  rw [e3] at h2
  refine ⟨by omega, by rw [h1.2, e2], by omega, by rw [h2.2, e4],
    applyStep_limited_ms st inp n, applyStep_non_limited_ms st inp n, rfl, ?_⟩
  rw [h1.1, h1.2, e2]
  push_cast
  ring_nf


/-! ## Peak floor invariant -/

theorem triageSignal_peak_ge_one (inp : List ℚ) (out : ℕ → ℤ) (side : ℕ)
    (local0 : ℚ) (last_pos : ℕ) (pre existing add scale : ℚ)
    (h : 1 ≤ existing) :
    1 ≤ (triageSignal inp out side local0 last_pos pre existing add
        scale).2.1 := by
  have hb : (1 : ℚ) ≤ upper_bound := by norm_num [upper_bound]
  simp only [triageSignal]
  split_ifs with h1 h2
  · exact le_trans hb (le_of_lt h1.2)
  · exact h
  · exact h

theorem findPeaks_peak_ge_one (st : State) (inp : List ℚ) (samples : ℕ)
    (hL : 1 ≤ st.peak.left) (hR : 1 ≤ st.peak.right) :
    1 ≤ (findPeaks st inp samples).peak.left ∧
      1 ≤ (findPeaks st inp samples).peak.right :=
  ⟨triageSignal_peak_ge_one _ _ _ _ _ _ _ _ _ hL,
   triageSignal_peak_ge_one _ _ _ _ _ _ _ _ _ hR⟩

theorem release_peak_ge_one (st : State)
    (hL : 1 ≤ st.peak.left) (hR : 1 ≤ st.peak.right) :
    1 ≤ (release st).peak.left ∧ 1 ≤ (release st).peak.right := by
  have hra : release_amplitude ≤ 32766 := by
    norm_num [release_amplitude, delta_db, upper_bound]
  have hub : upper_bound = 32767 := rfl
  constructor
  · rw [release_peak_left]
    split_ifs with h1
    · rw [hub] at h1; linarith
    · exact hL
  · rw [release_peak_right]
    split_ifs with h1
    · rw [hub] at h1; linarith
    · exact hR

theorem stepOp_peak_ge_one (st : State) (op : Op)
    (hL : 1 ≤ st.peak.left) (hR : 1 ≤ st.peak.right) :
    1 ≤ (stepOp st op).peak.left ∧ 1 ≤ (stepOp st op).peak.right := by
  cases op with
  | applyOp inp f =>
      show 1 ≤ (applyStep st inp f).peak.left ∧
        1 ≤ (applyStep st inp f).peak.right
      rw [applyStep_eq]
      have h1 := findPeaks_peak_ge_one st inp (f * 2 % 65536) hL hR
      have h2L : 1 ≤ (saveTailFrame (findPeaks st inp (f * 2 % 65536))
          f).peak.left := by rw [saveTailFrame_peak]; exact h1.1
      have h2R : 1 ≤ (saveTailFrame (findPeaks st inp (f * 2 % 65536))
          f).peak.right := by rw [saveTailFrame_peak]; exact h1.2
      exact release_peak_ge_one _ h2L h2R
  | resetOp => exact ⟨le_refl 1, le_refl 1⟩
  | getPeaksOp => exact ⟨hL, hR⟩
  | printStatsOp => exact ⟨hL, hR⟩

/-- C6: across every sequence of public operations from a fresh instance
the tracked peaks never fall below 1; the constructor starts them at
`{1,1}` and `Reset` restores exactly `{1,1}`. -/
theorem c6_peak_floor (pre : AudioFrame) (out0 : ℕ → ℤ) (ops : List Op) :
    (1 ≤ (runOps (mkState pre out0) ops).peak.left ∧
      1 ≤ (runOps (mkState pre out0) ops).peak.right) ∧
    (mkState pre out0).peak = ⟨1, 1⟩ ∧
    (∀ s : State, (resetStep s).peak = ⟨1, 1⟩) := by
  have inv : ∀ (l : List Op) (st : State),
      1 ≤ st.peak.left → 1 ≤ st.peak.right →
      1 ≤ (runOps st l).peak.left ∧ 1 ≤ (runOps st l).peak.right := by
    intro l
    induction l with
    | nil => intro st h1 h2; exact ⟨h1, h2⟩
    | cons op l ih =>
        intro st h1 h2
        have h := stepOp_peak_ge_one st op h1 h2
        simp only [runOps, List.foldl_cons]
        exact ih (stepOp st op) h.1 h.2
  exact ⟨inv ops (mkState pre out0) (le_refl 1) (le_refl 1), rfl,
    fun s => rfl⟩

/-! ## Diagnostics -/

set_option maxRecDepth 4000 in
/-- C7: `PrintStats` logs nothing when the accumulated time is under
30000 units or the larger peak is under 5 percent of the bound;
otherwise it reports the peak ratio capped at 100 percent, emits the
louder-mix value `100 * scale / peak_ratio` exactly when
`peak_ratio / scale < 6/10`, and emits the quieter-mix value
`100 * (1 - time_ratio / 2) * scale` exactly when the limited-time
fraction exceeds `1/5`. -/
theorem c7_print_stats (st : State) :
    (((st.limited_ms : ℚ) + (st.non_limited_ms : ℚ) < 30000 ∨
        max st.peak.left st.peak.right < upper_bound * (5 / 100)) →
      printStats st = none) ∧
    (30000 ≤ (st.limited_ms : ℚ) + (st.non_limited_ms : ℚ) →
      upper_bound * (5 / 100) ≤ max st.peak.left st.peak.right →
      printStats st =
        some
          { peakPct :=
              100 * min (max st.peak.left st.peak.right / upper_bound) 1
            louder :=
              if min (max st.peak.left st.peak.right / upper_bound) 1 /
                    max st.prescale.left st.prescale.right < 6 / 10 then
                some (100 * max st.prescale.left st.prescale.right /
                  min (max st.peak.left st.peak.right / upper_bound) 1)
              else none
            quieter :=
              if (st.limited_ms : ℚ) /
                    ((st.limited_ms : ℚ) + (st.non_limited_ms : ℚ) + 1) >
                  1 / 5 then
                some (100 *
                  (1 -
                    (st.limited_ms : ℚ) /
                      ((st.limited_ms : ℚ) + (st.non_limited_ms : ℚ) + 1) /
                      2) *
                  max st.prescale.left st.prescale.right)
              else none }) := by
  have h60 : ((st.limited_ms : ℚ) + (st.non_limited_ms : ℚ)) / (1000 * 60) <
        0.5 ↔
      (st.limited_ms : ℚ) + (st.non_limited_ms : ℚ) < 30000 := by
    rw [div_lt_iff₀ (by norm_num : (0 : ℚ) < 1000 * 60)]
    norm_num
  have h5 : upper_bound / 20 = upper_bound * (5 / 100) := by
    norm_num [upper_bound]
  have h6 : (0.6 : ℚ) = 6 / 10 := by norm_num
  have h2 : (0.2 : ℚ) = 1 / 5 := by norm_num
  constructor
  · rintro (h | h)
    · simp only [printStats]
      rw [if_pos (h60.mpr h)]
    · simp only [printStats]
      split_ifs with hA hB
      · rfl
      · rfl
      · rw [h5] at hB
        exact absurd h (not_lt.mpr (le_of_not_lt hB))
  · intro ht hp
    simp only [printStats]
    rw [if_neg (by rw [h60]; exact not_lt.mpr ht)]
    rw [if_neg (by rw [h5]; exact not_lt.mpr hp)]
    rw [h6]
    rw [h2]

/-- Closed instance of `c7_print_stats` at `statsDemoState`. -/
theorem c7_print_stats_witness :
    printStats statsDemoState = some ⟨100, none, some (1500100 / 30001)⟩ := by
  have h := (c7_print_stats statsDemoState).2
    (by norm_num [statsDemoState])
    (by norm_num [statsDemoState, upper_bound])
  rw [h]
  norm_num [statsDemoState, upper_bound, min_def, max_def]


/-! ## Coverage of the scaling passes -/

theorem scaleSideAux_miss (inp : List ℚ) (a m : ℚ) :
    ∀ (n start : ℕ) (out : ℕ → ℤ) (j : ℕ),
      (∀ k, k < n → j ≠ start + 2 * k) →
      scaleSideAux inp a m start n out j = out j := by
  intro n
  induction n with
  | zero => intro start out j _; rfl
  | succ n ih =>
      intro start out j h
      have h0 : j ≠ start := by
        have := h 0 (by omega)
        omega
      have h1 : ∀ k, k < n → j ≠ start + 2 + 2 * k := by
        intro k hk
        have := h (k + 1) (by omega)
        omega
      show scaleSideAux inp a m (start + 2) n
        (writeOut out start (truncQ (a + inp.getD start 0 * m))) j = out j
      rw [ih (start + 2) _ j h1]
      unfold writeOut
      exact if_neg h0

theorem scaleSideAux_hit (inp : List ℚ) (a m : ℚ) :
    ∀ (n start : ℕ) (out : ℕ → ℤ) (k : ℕ), k < n →
      scaleSideAux inp a m start n out (start + 2 * k) =
        truncQ (a + inp.getD (start + 2 * k) 0 * m) := by
  intro n
  induction n with
  | zero => intro start out k hk; omega
  | succ n ih =>
      intro start out k hk
      show scaleSideAux inp a m (start + 2) n
          (writeOut out start (truncQ (a + inp.getD start 0 * m)))
          (start + 2 * k) = _
      rcases Nat.eq_zero_or_pos k with hk0 | hkpos
      · subst hk0
        have e : start + 2 * 0 = start := by omega
        rw [e]
        rw [scaleSideAux_miss inp a m n (start + 2) _ start
          (by intro k2 _; omega)]
        unfold writeOut
        exact if_pos rfl
      · obtain ⟨k2, rfl⟩ : ∃ k2, k = k2 + 1 := ⟨k - 1, by omega⟩
        have e : start + 2 * (k2 + 1) = start + 2 + 2 * k2 := by ring
        rw [e]
        exact ih (start + 2) _ k2 (by omega)

/-- In the two scalar branches (no new peak this call for that side),
`TriageSignal` applies a single scalar pass over the side's slots from
`side` to `in.end() - (side + 2)` and keeps the tracked peak. -/
theorem triageSignal_scalar (inp : List ℚ) (out : ℕ → ℤ) (side : ℕ)
    (local0 : ℚ) (last_pos : ℕ) (pre existing add scale : ℚ)
    (h : ¬(local0 * pre > existing ∧ local0 * pre > upper_bound)) :
    triageSignal inp out side local0 last_pos pre existing add scale =
      (scaleSide inp 0
          (if existing > upper_bound then upper_bound / existing else 1)
          side ((inp.length : ℤ) - (side + 2)) out,
        existing,
        if existing > upper_bound then upper_bound / existing else scale) := by
  simp only [triageSignal]
  rw [if_neg h]
  split_ifs with h2 <;> rfl

theorem scaleSteps_left (S : ℕ) (h2 : 2 ≤ S) :
    scaleSteps ((0 : ℕ) : ℤ) ((S : ℤ) - 2) = S / 2 := by
  unfold scaleSteps
  omega

theorem scaleSteps_right (S : ℕ) (he : S % 2 = 0) :
    scaleSteps ((1 : ℕ) : ℤ) ((S : ℤ) - 3) = S / 2 - 1 := by
  unfold scaleSteps
  omega

/-- C9 counterexample: with capacity 2 frames, initial output contents 7
everywhere, prescale `{1,1}` and one call of a single frame `[0, 9]`
(the rest of the array holding `[8, 9]`), the pass-through branch writes
output index 2 (beyond `2*frameCount - 1 = 1`) but leaves the final
right slot, index 3, at its stale value 7 instead of `trunc(9 * 1) = 9`,
so the scaling pass does not write the whole array capacity. -/
theorem c9_full_coverage_counterexample :
    ((applyStep (mkState ⟨1, 1⟩ (fun _ => 7)) [0, 9, 8, 9] 1).out 2 = 8) ∧
    ((applyStep (mkState ⟨1, 1⟩ (fun _ => 7)) [0, 9, 8, 9] 1).out 3 = 7) ∧
    truncQ ((9 : ℚ) * 1) = 9 ∧ (7 : ℤ) ≠ 9 :=
  ⟨by with_unfolding_all decide, by with_unfolding_all decide,
   by with_unfolding_all decide, by decide⟩

/-- C9 (amended): when neither channel takes the new-peak branch, the
scaling passes read input and write output from each channel's first
slot toward the array end regardless of the requested frame count —
every left slot `i` (even, `i + 2 ≤ capacity`) and every right slot `i`
(odd, `i + 3 ≤ capacity`) receives the scaled input sample — but the
final right slot `capacity - 1` is never written and keeps its previous
contents. -/
theorem c9_coverage_amended (st : State) (inp : List ℚ) (n : ℕ)
    (h2 : 2 ≤ inp.length) (he : inp.length % 2 = 0)
    (hL : ¬((peakScan inp (n * 2 % 65536) st.peakPosLeft
            st.peakPosRight).localLeft * st.prescale.left > st.peak.left ∧
        (peakScan inp (n * 2 % 65536) st.peakPosLeft
            st.peakPosRight).localLeft * st.prescale.left > upper_bound))
    (hR : ¬((peakScan inp (n * 2 % 65536) st.peakPosLeft
            st.peakPosRight).localRight * st.prescale.right >
            st.peak.right ∧
        (peakScan inp (n * 2 % 65536) st.peakPosLeft
            st.peakPosRight).localRight * st.prescale.right >
            upper_bound)) :
    (∀ i, i % 2 = 0 → i + 2 ≤ inp.length →
      (applyStep st inp n).out i =
        truncQ (0 + inp.getD i 0 *
          (if st.peak.left > upper_bound then upper_bound / st.peak.left
            else 1))) ∧
    (∀ i, i % 2 = 1 → i + 3 ≤ inp.length →
      (applyStep st inp n).out i =
        truncQ (0 + inp.getD i 0 *
          (if st.peak.right > upper_bound then upper_bound / st.peak.right
            else 1))) ∧
    (applyStep st inp n).out (inp.length - 1) = st.out (inp.length - 1) := by
  have hout : (applyStep st inp n).out =
      (findPeaks st inp (n * 2 % 65536)).out := by
    rw [applyStep_eq, release_out, saveTailFrame_out]
  have hfp : (findPeaks st inp (n * 2 % 65536)).out =
      (triageSignal inp
        (triageSignal inp st.out 0
          (peakScan inp (n * 2 % 65536) st.peakPosLeft
            st.peakPosRight).localLeft
          (peakScan inp (n * 2 % 65536) st.peakPosLeft
            st.peakPosRight).posLeft
          st.prescale.left st.peak.left st.tail.left st.limit_scale.left).1
        1
        (peakScan inp (n * 2 % 65536) st.peakPosLeft
          st.peakPosRight).localRight
        (peakScan inp (n * 2 % 65536) st.peakPosLeft
          st.peakPosRight).posRight
        st.prescale.right st.peak.right st.tail.right
        st.limit_scale.right).1 := rfl
  rw [hout, hfp, triageSignal_scalar _ _ _ _ _ _ _ _ _ hL,
    triageSignal_scalar _ _ _ _ _ _ _ _ _ hR]
  simp only
  set mL := if st.peak.left > upper_bound then upper_bound / st.peak.left
    else 1 with hmL
  set mR := if st.peak.right > upper_bound then upper_bound / st.peak.right
    else 1 with hmR
  set S := inp.length with hS
  push_cast
  refine ⟨?_, ?_, ?_⟩
  · intro i hpar hle
    unfold scaleSide
    rw [scaleSteps_right S he]
    rw [scaleSideAux_miss inp 0 mR (S / 2 - 1) 1 _ i
      (by intro k hk; omega)]
    rw [scaleSteps_left S h2]
    have hhit := scaleSideAux_hit inp 0 mL (S / 2) 0 st.out (i / 2)
      (by omega)
    have e : 0 + 2 * (i / 2) = i := by omega
    rw [e] at hhit
    exact hhit
  · intro i hpar hle
    unfold scaleSide
    rw [scaleSteps_right S he]
    have hhit := scaleSideAux_hit inp 0 mR (S / 2 - 1) 1
      (scaleSideAux inp 0 mL 0
        (scaleSteps ((0 : ℕ) : ℤ) ((S : ℤ) - 2)) st.out)
      ((i - 1) / 2) (by omega)
    have e : 1 + 2 * ((i - 1) / 2) = i := by omega
    rw [e] at hhit
    exact hhit
  · unfold scaleSide
    rw [scaleSteps_right S he]
    rw [scaleSideAux_miss inp 0 mR (S / 2 - 1) 1 _ (S - 1)
      (by intro k hk; omega)]
    rw [scaleSteps_left S h2]
    rw [scaleSideAux_miss inp 0 mL (S / 2) 0 st.out (S - 1)
      (by intro k hk; omega)]

/-- Closed instance of `c9_coverage_amended` on the counterexample run:
output index 2 receives `trunc(8 * 1)` and index 3 keeps the initial 7. -/
theorem c9_coverage_amended_witness :
    ((applyStep (mkState ⟨1, 1⟩ (fun _ => 7)) [0, 9, 8, 9] 1).out 2 =
      truncQ (0 + (8 : ℚ) * 1)) ∧
    ((applyStep (mkState ⟨1, 1⟩ (fun _ => 7)) [0, 9, 8, 9] 1).out 3 =
      (7 : ℤ)) := by
  have h := c9_coverage_amended (mkState ⟨1, 1⟩ (fun _ => 7)) [0, 9, 8, 9] 1
    (by norm_num) (by norm_num)
    (by with_unfolding_all decide) (by with_unfolding_all decide)
  constructor
  · have h1 := h.1 2 (by norm_num) (by norm_num)
    rw [h1]
    with_unfolding_all decide
  · have h3 := h.2.2
    simpa [mkState] using h3

end SoftLimiter
